import Mathlib

set_option autoImplicit false
set_option maxHeartbeats 1000000

/-!
Verification development for `pkg/proc/native/threads_linux_arm.go`:
the ARM-architecture single-step emulation layer of a native debugger.

The file embeds the three functions of the source file —
`restoreRegisters`, `resolvePC` and `singleStep` — as pure Lean
functions.  Machine integers are modelled as `Nat` with explicit
`% 2^64` where Go's `uint64` arithmetic wraps, and `% 2^32` where a
`uint64` address is converted to a 32-bit `uintptr` (this file is built
for `linux/arm`, whose `uintptr` is 32 bits wide).  The external ptrace
layer is modelled as an oracle: tracee memory is a partial byte map
(`none` marks an unmapped byte, where `PtracePeekData`/`PtracePokeData`
fail), register reads may fail per register, and the `wait` primitive
consumes a list of observed events.  The `armasm.Decode` library call is
a parameter (a function from the fetched bytes to a decoded instruction
or an error), since that library is outside the repository.
-/

/-- Failures of the underlying ptrace / decode layer, distinguished by kind
and by the address or register they concern. -/
inductive PtErr where
  | memRead (addr : Nat)
  | memWrite (addr : Nat)
  | regGet (r : Nat)
  | decodeFail
  | contFail
  | waitFail
deriving DecidableEq

/-- `armasm.Shift` constants: `ShiftLeft`, `ShiftRight`, `ShiftRightSigned`,
`RotateRight`, `RotateRightExt`. -/
inductive Shift where
  | left
  | right
  | rightSigned
  | ror
  | rrx
deriving DecidableEq

/-- `armasm.AddrMode` constants used by the source: `AddrPostIndex`,
`AddrPreIndex`, `AddrOffset`. -/
inductive AddrMode where
  | postIndex
  | preIndex
  | offset
deriving DecidableEq

/-- The `armasm.Op` values the source dispatches on; every other opcode is
collapsed into `other`, which the source's `switch` treats uniformly. -/
inductive Op where
  | B
  | BL
  | BLX
  | BX
  | POP
  | LDR
  | MOV
  | ADD
  | other
deriving DecidableEq

/-- One `armasm.Arg` slot.  `Arg.none` is a nil interface slot (the fixed
`[4]Arg` array of `armasm.Inst` pads unused slots with nil, which matches
no case of a Go type switch).  `imm` holds a `uint32` value, `pcrel` an
`int32` offset, `regList` a 16-bit register mask, and `mem` the fields of
`armasm.Mem`: base register, addressing mode, sign (`int8`), index
register, shift kind, shift count (`uint8`) and immediate offset
(`int16`). -/
inductive Arg where
  | none
  | imm (v : Nat)
  | reg (r : Nat)
  | pcrel (off : Int)
  | regList (mask : Nat)
  | mem (base : Nat) (mode : AddrMode) (sign : Int) (index : Nat)
        (shift : Shift) (count : Nat) (offset : Int)
deriving DecidableEq

/-- A decoded `armasm.Inst`: opcode plus argument slots.  `armasm.PC` is
register 15, `armasm.SP` register 13 (`R0 = 0 … R15 = 15`). -/
structure Inst where
  op : Op
  args : List Arg
deriving DecidableEq

/-- `Args[0]` of a decoded instruction (nil slot when absent). -/
def arg0 (i : Inst) : Arg := i.args.getD 0 Arg.none

/-- `Args[1]` of a decoded instruction (nil slot when absent). -/
def arg1 (i : Inst) : Arg := i.args.getD 1 Arg.none

/-- `Args[1:]` of a decoded instruction. -/
def argsFrom1 (i : Inst) : List Arg := i.args.drop 1

/-- Tracee memory as seen through ptrace: a partial byte map.  A `none`
byte is unmapped — `PtracePeekData` and `PtracePokeData` touching it
fail. -/
def TraceeMem : Type := Nat → Option Nat

/-- The view `proc.Registers` offers to this file: the program counter
(`regs.PC()`) and the indexed accessor (`regs.Get(i)`), which may fail.
Both return `uint64` values in Go; `getReg` reduces accordingly. -/
structure Registers where
  pc : Nat
  get : Nat → Option Nat

/-- `regs.Get(r)`: a successful read yields a `uint64` value. -/
def getReg (regs : Registers) (r : Nat) : Except PtErr Nat :=
  match regs.get r with
  | Option.some v => Except.ok (v % 2^64)
  | Option.none => Except.error (PtErr.regGet r)

/-- Conversion of a `uint64` address to `uintptr` at a ptrace call site:
on `linux/arm` the pointer is 32 bits wide. -/
def uptr (a : Nat) : Nat := a % 2^32

/-- `sys.PtracePeekData(pid, addr, buf)` with `len(buf) = n`: reads `n`
consecutive bytes, failing if any byte is unmapped. -/
def peekData (m : TraceeMem) (addr n : Nat) : Option (List Nat) :=
  (List.range n).mapM (fun i => m (addr + i))

/-- `binary.LittleEndian.Uint32` applied to a fetched buffer (the source
always fetches `MaxInstructionLength = 4` bytes on this architecture). -/
def uint32LE (bs : List Nat) : Nat :=
  bs.getD 0 0 + ((bs.getD 1 0) <<< 8) + ((bs.getD 2 0) <<< 16) + ((bs.getD 3 0) <<< 24)

/-- The source's second memory read in the `POP`/`LDR` cases: peek
`nextInstrLen` bytes at `addr` and take the little-endian `uint32` of the
first four. -/
def readWordAt (m : TraceeMem) (addr n : Nat) : Except PtErr Nat :=
  match peekData m addr n with
  | Option.some bs => Except.ok (uint32LE bs)
  | Option.none => Except.error (PtErr.memRead addr)

/-- Go's `bits.RotateLeft64 x k`: rotate the 64-bit value left by
`k mod 64` (negative `k` rotates right). -/
def rotateLeft64 (x : Nat) (k : Int) : Nat :=
  let s := (k % 64).toNat
  ((x <<< s) % 2^64) ||| (x >>> (64 - s))

/-- The shift/rotate transformation of the index register in the source's
`LDR` case: `<<=` and `>>=` are Go `uint64` shifts (both right-shift
kinds are the same logical shift, the value being unsigned), and both
rotate kinds call `bits.RotateLeft64(idx, -count)`. -/
def applyShift (shift : Shift) (count idx : Nat) : Nat :=
  match shift with
  | Shift.left => (idx <<< count) % 2^64
  | Shift.right => idx >>> count
  | Shift.rightSigned => idx >>> count
  | Shift.ror => rotateLeft64 idx (-(count : Int))
  | Shift.rrx => rotateLeft64 idx (-(count : Int))

/-- The source's `POP` address walk: start from the stack pointer and add
`nextInstrLen` (one `uint64` addition per register) for every register
slot `0 ≤ i < 15` present in the register-list mask. -/
def popAddr (nextInstrLen mask sp : Nat) : Nat :=
  (List.range 15).foldl
    (fun pc i => if mask &&& (1 <<< i) ≠ 0 then (pc + nextInstrLen) % 2^64 else pc) sp

/-- The summation loop of the source's `MOV`/`ADD` case over `Args[1:]`:
immediates are added directly, registers are read live, every other slot
(including nil) is skipped. -/
def sumArgs (regs : Registers) : List Arg → Nat → Except PtErr Nat
  | [], pc => Except.ok pc
  | Arg.imm v :: rest, pc => sumArgs regs rest ((pc + v) % 2^64)
  | Arg.reg r :: rest, pc =>
    match getReg regs r with
    | Except.error e => Except.error e
    | Except.ok v => sumArgs regs rest ((pc + v) % 2^64)
  | _ :: rest, pc => sumArgs regs rest pc

/-- `(*nativeThread).resolvePC`: enumerate every address the processor
could execute after the instruction at the current program counter.
`decode` stands for the external `armasm.Decode(·, armasm.ModeARM)`
library call; `nextInstrLen` is `Arch.MaxInstructionLength()`. -/
def resolvePC (decode : List Nat → Except PtErr Inst) (nextInstrLen : Nat)
    (m : TraceeMem) (regs : Registers) : Except PtErr (List Nat) :=
  match peekData m (uptr regs.pc) nextInstrLen with
  | Option.none => Except.error (PtErr.memRead (uptr regs.pc))
  | Option.some nextInstrBytes =>
    let nextPcs : List Nat := [(regs.pc + nextInstrLen) % 2^64]
    match decode nextInstrBytes with
    | Except.error e => Except.error e
    | Except.ok nextInstr =>
      match nextInstr.op with
      | Op.BL | Op.BLX | Op.B | Op.BX =>
        match arg0 nextInstr with
        | Arg.imm v => Except.ok (nextPcs ++ [v])
        | Arg.reg r =>
          match getReg regs r with
          | Except.error e => Except.error e
          | Except.ok pc => Except.ok (nextPcs ++ [pc])
        | Arg.pcrel off =>
          Except.ok (nextPcs ++ [(((regs.pc : Int) + off) % ((2 : Int)^64)).toNat])
        | _ => Except.ok nextPcs
      | Op.POP =>
        match arg0 nextInstr with
        | Arg.regList mask =>
          if mask &&& (1 <<< 15) ≠ 0 then
            match getReg regs 13 with
            | Except.error e => Except.error e
            | Except.ok sp =>
              match readWordAt m (uptr (popAddr nextInstrLen mask sp)) nextInstrLen with
              | Except.error e => Except.error e
              | Except.ok w => Except.ok (nextPcs ++ [w])
          else Except.ok nextPcs
        | _ => Except.ok nextPcs
      | Op.LDR =>
        match arg0 nextInstr with
        | Arg.reg r =>
          if r = 15 then
            match arg1 nextInstr with
            | Arg.mem base mode sign index shift count offset =>
              match getReg regs base with
              | Except.error e => Except.error e
              | Except.ok pc0 =>
                let pcE : Except PtErr Nat :=
                  if mode = AddrMode.offset ∨ mode = AddrMode.preIndex then
                    if sign ≠ 0 then
                      match getReg regs index with
                      | Except.error e => Except.error e
                      | Except.ok idx0 =>
                        let idx :=
                          if ¬(shift = Shift.left ∧ count = 0) then
                            applyShift shift count idx0
                          else idx0
                        if sign < 0 then
                          Except.ok ((((pc0 : Int) - (idx : Int)) % ((2 : Int)^64)).toNat)
                        else
                          Except.ok ((pc0 + idx) % 2^64)
                    else
                      Except.ok ((((pc0 : Int) + offset) % ((2 : Int)^64)).toNat)
                  else Except.ok pc0
                match pcE with
                | Except.error e => Except.error e
                | Except.ok pc =>
                  match readWordAt m (uptr pc) nextInstrLen with
                  | Except.error e => Except.error e
                  | Except.ok w => Except.ok (nextPcs ++ [w])
            | _ => Except.ok nextPcs
          else Except.ok nextPcs
        | _ => Except.ok nextPcs
      | Op.MOV | Op.ADD =>
        match arg0 nextInstr with
        | Arg.reg r =>
          if r = 15 then
            match sumArgs regs (argsFrom1 nextInstr) 0 with
            | Except.error e => Except.error e
            | Except.ok pc => Except.ok (nextPcs ++ [pc])
          else Except.ok nextPcs
        | _ => Except.ok nextPcs
      | Op.other => Except.ok nextPcs

example :
    resolvePC (fun _ => Except.ok ⟨Op.other, []⟩) 4 (fun _ => Option.some 0)
      ⟨0x1000, fun _ => Option.none⟩ = Except.ok [0x1004] := rfl

example :
    resolvePC (fun _ => Except.ok ⟨Op.B, [Arg.imm 0x2000]⟩) 4 (fun _ => Option.some 0)
      ⟨0x1000, fun _ => Option.none⟩ = Except.ok [0x1004, 0x2000] := rfl

/-- The branch-class opcodes of the source's first `case`. -/
def isBranchOp : Op → Bool
  | Op.B => true
  | Op.BL => true
  | Op.BLX => true
  | Op.BX => true
  | _ => false

/-- Stack-pop class whose register list includes the program counter
(bit 15 of the `RegList` mask). -/
def isPopPC (i : Inst) : Bool :=
  (i.op == Op.POP) &&
    (match arg0 i with
     | Arg.regList mask => mask &&& (1 <<< 15) != 0
     | _ => false)

/-- Load class whose destination operand is the program counter and whose
source operand is a memory-addressing expression. -/
def isLdrPC (i : Inst) : Bool :=
  (i.op == Op.LDR) && (arg0 i == Arg.reg 15) &&
    (match arg1 i with
     | Arg.mem _ _ _ _ _ _ _ => true
     | _ => false)

/-- Arithmetic class (`MOV`/`ADD`) whose destination operand is the
program counter. -/
def isArithPC (i : Inst) : Bool :=
  (i.op == Op.MOV || i.op == Op.ADD) && (arg0 i == Arg.reg 15)

/-- An instruction in any of the four classes for which the source appends
a taken target beyond the fall-through address. -/
def canAlterControlFlow (i : Inst) : Bool :=
  isBranchOp i.op || isPopPC i || isLdrPC i || isArithPC i

/-- C4: whenever `resolvePC` returns successfully the candidate list is
non-empty and contains the fall-through address `currentPC +
maxInstructionLength` (as a `uint64` sum), and for every decoded
instruction outside the branch, stack-pop-including-PC, load-to-PC and
arithmetic-to-PC classes the result is exactly the one-element list
holding that fall-through address. -/
theorem resolvePC_fallthrough_default (decode : List Nat → Except PtErr Inst)
    (n : Nat) (m : TraceeMem) (regs : Registers) (l : List Nat)
    (h : resolvePC decode n m regs = Except.ok l) :
    l ≠ [] ∧ (regs.pc + n) % 2^64 ∈ l ∧
      ∀ bs inst, peekData m (uptr regs.pc) n = Option.some bs →
        decode bs = Except.ok inst → canAlterControlFlow inst = false →
        l = [(regs.pc + n) % 2^64] := by
  cases hpk : peekData m (uptr regs.pc) n with
  | none => simp only [resolvePC, hpk] at h; cases h
  | some bs0 =>
    cases hdec : decode bs0 with
    | error e => simp only [resolvePC, hpk, hdec] at h; cases h
    | ok inst0 =>
      simp only [resolvePC, hpk, hdec] at h
      have hshape : l = [(regs.pc + n) % 2^64] ∨
          ∃ t, l = [(regs.pc + n) % 2^64] ++ [t] := by
        repeat' split at h
        all_goals (first
          | (exact Except.noConfusion h)
          | (exact Or.inl (Except.ok.inj h).symm)
          | (exact Or.inr ⟨_, (Except.ok.inj h).symm⟩))
      refine ⟨?_, ?_, ?_⟩
      · rcases hshape with h1 | ⟨t, h1⟩ <;> simp [h1]
      · rcases hshape with h1 | ⟨t, h1⟩ <;> simp [h1]
      · intro bs inst hbs hinst hflow
        have hbs0 : bs0 = bs := Option.some.inj hbs
        subst hbs0
        have hinst0 : inst0 = inst := Except.ok.inj ((hdec.symm.trans hinst))
        subst hinst0
        repeat' split at h
        all_goals (first
          | (exact Except.noConfusion h)
          | (exact (Except.ok.inj h).symm)
          | rfl
          | (exfalso; simp_all [canAlterControlFlow, isBranchOp, isPopPC, isLdrPC,
              isArithPC, arg0, arg1]))

/-- Witness for `resolvePC_fallthrough_default` at a concrete
non-control-flow instruction: a single fall-through candidate. -/
theorem resolvePC_fallthrough_default_witness :
    ([0x1004] : List Nat) ≠ [] ∧ (0x1004 : Nat) ∈ [0x1004] ∧
      [0x1004] = [(0x1000 + 4) % 2^64] := by
  have h := resolvePC_fallthrough_default (fun _ => Except.ok ⟨Op.other, []⟩) 4
    (fun _ => Option.some 0) ⟨0x1000, fun _ => Option.none⟩ [0x1004] rfl
  exact ⟨h.1, h.2.1, h.2.2 [0, 0, 0, 0] ⟨Op.other, []⟩ rfl rfl rfl⟩

/-- Each selected register slot below the program-counter slot advances the
stack address by one `nextInstrLen`-sized word: the fold of the source's
`POP` loop equals the base plus `nextInstrLen` times the number of selected
slots, as a `uint64` sum. -/
theorem popAddr_eq_count (n mask sp : Nat) (hsp : sp < 2^64) :
    popAddr n mask sp
      = (sp + n * ((List.range 15).countP (fun i => decide (mask &&& (1 <<< i) ≠ 0)))) % 2^64 := by
  unfold popAddr
  have hgen : ∀ (l : List Nat) (s : Nat), s < 2^64 →
      l.foldl (fun pc i => if mask &&& (1 <<< i) ≠ 0 then (pc + n) % 2^64 else pc) s
        = (s + n * (l.countP (fun i => decide (mask &&& (1 <<< i) ≠ 0)))) % 2^64 := by
    intro l
    induction l with
    | nil => intro s hs; simp; omega
    | cons hd tl ih =>
      intro s hs
      by_cases hp : mask &&& (1 <<< hd) ≠ 0
      · simp only [List.foldl_cons, if_pos hp]
        rw [ih ((s + n) % 2^64) (Nat.mod_lt _ (by norm_num)), Nat.mod_add_mod,
          List.countP_cons, decide_eq_true hp]
        simp only [if_true]
        congr 1
        ring
      · simp only [List.foldl_cons, if_neg hp]
        rw [ih s hs, List.countP_cons, decide_eq_false hp]
        simp
  exact hgen (List.range 15) sp hsp

/-- C5: for a stack-pop instruction whose register list includes the
program counter, `resolvePC` computes the load address as the stack
pointer plus one word (`nextInstrLen = 4`, the word size of this
architecture) for every register slot below the program-counter slot,
reads one word there, and appends that word: the result is exactly the
fall-through address followed by the loaded word. -/
theorem resolvePC_pop_pc_address (mask sp : Nat) (m : TraceeMem) (regs : Registers)
    (ibs bs : List Nat)
    (hfetch : peekData m (uptr regs.pc) 4 = Option.some ibs)
    (hmask : mask &&& (1 <<< 15) ≠ 0)
    (hsp : regs.get 13 = Option.some sp) (hsp64 : sp < 2^64)
    (hread : peekData m (uptr ((sp + 4 * ((List.range 15).countP
        (fun i => decide (mask &&& (1 <<< i) ≠ 0)))) % 2^64)) 4 = Option.some bs) :
    resolvePC (fun _ => Except.ok ⟨Op.POP, [Arg.regList mask]⟩) 4 m regs
      = Except.ok [(regs.pc + 4) % 2^64, uint32LE bs] := by
  have hget : getReg regs 13 = Except.ok sp := by
    simp only [getReg, hsp]
    rw [Nat.mod_eq_of_lt hsp64]
  have haddr := popAddr_eq_count 4 mask sp hsp64
  simp only [resolvePC, hfetch, arg0, List.getD, List.get?, Option.getD, if_pos hmask,
    hget, haddr, readWordAt, hread]
  rfl

/-- Witness for `resolvePC_pop_pc_address` with register list
containing R0, R3 and the program counter (mask `0x8009`): two selected
slots precede the program-counter slot, so the load address is
`SP + 2 * 4 = 0x7008` and the loaded word `0x2000` is appended. -/
theorem resolvePC_pop_pc_address_witness :
    resolvePC (fun _ => Except.ok ⟨Op.POP, [Arg.regList 0x8009]⟩) 4
        (fun a => Option.some (if a = 0x7009 then 0x20 else 0))
        ⟨0x1000, fun r => if r = 13 then Option.some 0x7000 else Option.none⟩
      = Except.ok [0x1004, 0x2000] := by
  have h := resolvePC_pop_pc_address 0x8009 0x7000
    (fun a => Option.some (if a = 0x7009 then 0x20 else 0))
    ⟨0x1000, fun r => if r = 13 then Option.some 0x7000 else Option.none⟩
    [0, 0, 0, 0] [0, 0x20, 0, 0] rfl (by decide) rfl (by norm_num) rfl
  simpa using h

/-- Modelled from the spec: the architectural "right shift with sign
extension" (arithmetic shift right) of a 32-bit ARM register value, the
semantics the spec's load-to-program-counter rule prescribes for the
`ShiftRightSigned` index form.  The value is reinterpreted as a signed
32-bit integer, shifted arithmetically (floor division by a power of
two), and reinterpreted as unsigned. -/
def asr32 (v count : Nat) : Nat :=
  let s : Int := (v % 2^32 : Nat) -
    (if Nat.testBit (v % 2^32) 31 then ((2 : Int)^32) else 0)
  ((Int.ediv s (2^count)) % (2 : Int)^32).toNat

/-- The decoded instruction of the C6 counterexample:
`LDR PC, [R1, R2, ASR #4]` — destination is the program counter, base
register R1, positively-signed index register R2 with
`ShiftRightSigned` by 4. -/
def instC6 : Inst :=
  ⟨Op.LDR, [Arg.reg 15, Arg.mem 1 AddrMode.offset 1 2 Shift.rightSigned 4 0]⟩

/-- Registers of the C6 counterexample: `R1 = 0x10000` (base),
`R2 = 0x80000000` (index, negative as a signed 32-bit value). -/
def regsC6 : Registers :=
  ⟨0x1000, fun r => if r = 1 then Option.some 0x10000
    else if r = 2 then Option.some 0x80000000 else Option.none⟩

/-- Memory of the C6 counterexample: the word at the address the code
computes (`0x10000 + (0x80000000 >> 4) = 0x08010000`) is `0x1111`; the
word at the architecturally-computed address
(`0x10000 + asr32 0x80000000 4 = 0xF8010000`) is `0x2222`. -/
def memC6 : TraceeMem :=
  fun a => Option.some
    (if a = 0x08010000 ∨ a = 0x08010001 then 0x11
     else if a = 0xF8010000 ∨ a = 0xF8010001 then 0x22 else 0)

/-- C6 counterexample: for `LDR PC, [R1, R2, ASR #4]` with
`R2 = 0x80000000`, the source shifts the index with Go's unsigned
`uint64` right shift, so it reads the word `0x1111` at
`0x10000 + 0x08000000`; the architectural arithmetic shift prescribed by
the claim yields index `0xF8000000`, whose address holds the different
word `0x2222`.  The appended candidate therefore differs from the one
the claim describes. -/
theorem resolvePC_ldr_asr_not_architectural :
    resolvePC (fun _ => Except.ok instC6) 4 memC6 regsC6
        = Except.ok [0x1004, 0x1111]
      ∧ asr32 0x80000000 4 = 0xF8000000
      ∧ readWordAt memC6 (uptr ((0x10000 + asr32 0x80000000 4) % 2^64)) 4
          = Except.ok 0x2222
      ∧ (0x1111 : Nat) ≠ 0x2222 := by
  refine ⟨rfl, by decide, rfl, by decide⟩

/-- The effective-address computation of the source's load-to-PC case,
as a standalone function of the `armasm.Mem` operand fields: base
register plus (for the offset and pre-index addressing modes) either the
signed immediate offset, or the index register transformed by
`applyShift` — left shift as a 64-bit left shift, both right-shift kinds
as the logical (unsigned) 64-bit right shift, both rotate kinds as a
64-bit rotate right by the encoded count — added or subtracted according
to the encoded sign, with `uint64` wrap-around. -/
def ldrEffAddr (regs : Registers) (base : Nat) (mode : AddrMode) (sign : Int)
    (index : Nat) (shift : Shift) (count : Nat) (offset : Int) : Except PtErr Nat :=
  match getReg regs base with
  | Except.error e => Except.error e
  | Except.ok b =>
    if mode = AddrMode.offset ∨ mode = AddrMode.preIndex then
      if sign ≠ 0 then
        match getReg regs index with
        | Except.error e => Except.error e
        | Except.ok idx0 =>
          let idx := if ¬(shift = Shift.left ∧ count = 0) then
              applyShift shift count idx0 else idx0
          if sign < 0 then Except.ok ((((b : Int) - (idx : Int)) % ((2 : Int)^64)).toNat)
          else Except.ok ((b + idx) % 2^64)
      else Except.ok ((((b : Int) + offset) % ((2 : Int)^64)).toNat)
    else Except.ok b

/-- C6 (amended): for a load whose destination is the program counter and
whose source is a memory-addressing operand, `resolvePC` computes the
effective address `ldrEffAddr` — base register plus immediate offset or
index register transformed by the shift rules as the code implements
them (logical 64-bit right shifts for both right-shift kinds, 64-bit
rotate-right for both rotate kinds) — reads one word at that address and
appends it as the sole taken candidate. -/
theorem resolvePC_ldr_pc_effective_address (m : TraceeMem) (regs : Registers)
    (base : Nat) (mode : AddrMode) (sign : Int) (index : Nat) (shift : Shift)
    (count : Nat) (offset : Int) (ibs bs : List Nat) (addr : Nat)
    (hfetch : peekData m (uptr regs.pc) 4 = Option.some ibs)
    (haddr : ldrEffAddr regs base mode sign index shift count offset = Except.ok addr)
    (hread : peekData m (uptr addr) 4 = Option.some bs) :
    resolvePC (fun _ => Except.ok ⟨Op.LDR,
        [Arg.reg 15, Arg.mem base mode sign index shift count offset]⟩) 4 m regs
      = Except.ok [(regs.pc + 4) % 2^64, uint32LE bs] := by
  unfold ldrEffAddr at haddr
  cases hb : getReg regs base with
  | error e => simp only [hb] at haddr; cases haddr
  | ok b =>
    simp only [hb] at haddr
    simp only [resolvePC, hfetch, arg0, arg1, List.getD, List.get?, Option.getD,
      if_pos rfl, if_true, hb]
    by_cases hmode : mode = AddrMode.offset ∨ mode = AddrMode.preIndex
    · simp only [if_pos hmode] at haddr ⊢
      by_cases hsign : sign ≠ 0
      · simp only [if_pos hsign] at haddr ⊢
        cases hix : getReg regs index with
        | error e => simp only [hix] at haddr; cases haddr
        | ok idx0 =>
          simp only [hix] at haddr ⊢
          by_cases hneg : sign < 0
          · simp only [if_pos hneg] at haddr ⊢
            rw [Except.ok.inj haddr]
            simp only [readWordAt, hread]
            rfl
          · simp only [if_neg hneg] at haddr ⊢
            rw [Except.ok.inj haddr]
            simp only [readWordAt, hread]
            rfl
      · simp only [if_neg hsign] at haddr ⊢
        rw [Except.ok.inj haddr]
        simp only [readWordAt, hread]
        rfl
    · simp only [if_neg hmode] at haddr ⊢
      rw [Except.ok.inj haddr]
      simp only [readWordAt, hread]
      rfl

/-- Witness for `resolvePC_ldr_pc_effective_address` at the C6
configuration: the code's effective address is `0x08010000` and the word
read there, `0x1111`, is the appended candidate. -/
theorem resolvePC_ldr_pc_effective_address_witness :
    resolvePC (fun _ => Except.ok ⟨Op.LDR,
        [Arg.reg 15, Arg.mem 1 AddrMode.offset 1 2 Shift.rightSigned 4 0]⟩) 4 memC6 regsC6
      = Except.ok [0x1004, 0x1111] := by
  have h := resolvePC_ldr_pc_effective_address memC6 regsC6 1 AddrMode.offset 1 2
    Shift.rightSigned 4 0 [0, 0, 0, 0] [0x11, 0x11, 0, 0] 0x08010000 rfl rfl rfl
  simpa using h

/-- C7: for a branch-class instruction (`B`, `BL`, `BLX`, `BX`),
`resolvePC` appends exactly one taken target determined by the first
operand: an immediate operand is appended directly as an absolute
address, a register operand contributes the register's current value,
and a program-counter-relative operand contributes `currentPC + offset`
(a `uint64` sum of the sign-extended `int32` offset). -/
theorem resolvePC_branch_targets (op : Op) (m : TraceeMem) (regs : Registers)
    (ibs : List Nat) (hop : isBranchOp op = true)
    (hfetch : peekData m (uptr regs.pc) 4 = Option.some ibs) :
    (∀ v, resolvePC (fun _ => Except.ok ⟨op, [Arg.imm v]⟩) 4 m regs
        = Except.ok [(regs.pc + 4) % 2^64, v])
    ∧ (∀ r V, regs.get r = Option.some V → V < 2^64 →
        resolvePC (fun _ => Except.ok ⟨op, [Arg.reg r]⟩) 4 m regs
          = Except.ok [(regs.pc + 4) % 2^64, V])
    ∧ (∀ off, resolvePC (fun _ => Except.ok ⟨op, [Arg.pcrel off]⟩) 4 m regs
        = Except.ok [(regs.pc + 4) % 2^64,
            (((regs.pc : Int) + off) % ((2 : Int)^64)).toNat]) := by
  refine ⟨?_, ?_, ?_⟩
  · intro v
    cases op <;> simp only [isBranchOp] at hop <;> (try cases hop) <;>
      simp only [resolvePC, hfetch, arg0, List.getD, List.get?, Option.getD] <;> rfl
  · intro r V hV hV64
    have hget : getReg regs r = Except.ok V := by
      simp only [getReg, hV]
      rw [Nat.mod_eq_of_lt hV64]
    cases op <;> simp only [isBranchOp] at hop <;> (try cases hop) <;>
      simp only [resolvePC, hfetch, arg0, List.getD, List.get?, Option.getD, hget] <;> rfl
  · intro off
    cases op <;> simp only [isBranchOp] at hop <;> (try cases hop) <;>
      simp only [resolvePC, hfetch, arg0, List.getD, List.get?, Option.getD] <;> rfl

/-- Witness for `resolvePC_branch_targets`: an unconditional branch with
immediate target `0x2000` at `PC = 0x1000` yields exactly the
fall-through address `0x1004` and the target `0x2000`. -/
theorem resolvePC_branch_targets_witness :
    resolvePC (fun _ => Except.ok ⟨Op.B, [Arg.imm 0x2000]⟩) 4
        (fun _ => Option.some 0) ⟨0x1000, fun _ => Option.none⟩
      = Except.ok [0x1004, 0x2000] := by
  have h := (resolvePC_branch_targets Op.B (fun _ => Option.some 0)
    ⟨0x1000, fun _ => Option.none⟩ [0, 0, 0, 0] rfl rfl).1 0x2000
  simpa using h

/-- The two register-set writes `restoreRegisters` can issue. -/
inductive WriteKind where
  | gregs
  | fpregs
deriving DecidableEq

/-- The saved register state passed to `restoreRegisters`
(`*linutil.ARMRegisters`): the general-register block is always present;
`fpregset` models the `Fpregset` byte slice, `none` when no
floating-point block was captured (`sr.Fpregset == nil`). -/
structure SavedRegs where
  fpregset : Option (List Nat)

/-- `(*nativeThread).restoreRegisters`: `gErr` is the `syscall.Errno`
returned by `ptraceSetGRegs` and `fpErr` the one returned by the
`PTRACE_SETREGSET` syscall for the floating-point block (`0` means
success for both — the source compares against `syscall.Errno(0)` and
converts it to a nil error at the end).  The result is the final error
(`none` for nil) paired with the ordered list of write attempts. -/
def restoreRegisters (saved : SavedRegs) (gErr fpErr : Nat) :
    Option Nat × List WriteKind :=
  if gErr ≠ 0 then (Option.some gErr, [WriteKind.gregs])
  else
    match saved.fpregset with
    | Option.some _ =>
      ((if fpErr = 0 then Option.none else Option.some fpErr),
        [WriteKind.gregs, WriteKind.fpregs])
    | Option.none => (Option.none, [WriteKind.gregs])

/-- C9: `restoreRegisters` always attempts the general-register write
first; when that write fails the floating-point write is not attempted
and the general-register failure is returned; when no floating-point
block was captured no floating-point write is attempted and that is not
an error; the call returns success (nil) exactly when every attempted
write succeeded. -/
theorem restoreRegisters_contract (saved : SavedRegs) (gErr fpErr : Nat) :
    (restoreRegisters saved gErr fpErr).2.head? = Option.some WriteKind.gregs
    ∧ (gErr ≠ 0 → (restoreRegisters saved gErr fpErr).2 = [WriteKind.gregs]
        ∧ (restoreRegisters saved gErr fpErr).1 = Option.some gErr)
    ∧ (saved.fpregset = Option.none →
        (restoreRegisters saved gErr fpErr).2 = [WriteKind.gregs])
    ∧ ((restoreRegisters saved gErr fpErr).1 = Option.none ↔
        (gErr = 0 ∧ (saved.fpregset = Option.none ∨ fpErr = 0))) := by
  obtain ⟨fp⟩ := saved
  by_cases hg : gErr = 0
  · subst hg
    cases fp with
    | none => simp [restoreRegisters]
    | some blk =>
      by_cases hf : fpErr = 0 <;> simp [restoreRegisters, hf]
  · cases fp with
    | none => simp [restoreRegisters, hg]
    | some blk => simp [restoreRegisters, hg]

/-- Witness for `restoreRegisters_contract`: with a captured
floating-point block and a failing general-register write (errno 7), the
only attempted write is the general one and errno 7 is returned; with no
block and both calls succeeding, the result is nil. -/
theorem restoreRegisters_contract_witness :
    (restoreRegisters ⟨Option.some [1]⟩ 7 0).2 = [WriteKind.gregs]
    ∧ (restoreRegisters ⟨Option.some [1]⟩ 7 0).1 = Option.some 7
    ∧ (restoreRegisters ⟨Option.none⟩ 0 0).1 = Option.none := by
  have h1 := (restoreRegisters_contract ⟨Option.some [1]⟩ 7 0).2.1 (by decide)
  have h2 := (restoreRegisters_contract ⟨Option.none⟩ 0 0).2.2.2.mpr
    ⟨rfl, Or.inl rfl⟩
  exact ⟨h1.1, h1.2, h2⟩

/-- `sys.PtracePokeData`: writes `bs` consecutive bytes at `addr`,
failing without modifying anything when any target byte is unmapped. -/
def pokeData (m : TraceeMem) (addr : Nat) (bs : List Nat) : Option TraceeMem :=
  if (List.range bs.length).all (fun i => (m (addr + i)).isSome) then
    Option.some (fun a =>
      if addr ≤ a ∧ a < addr + bs.length then Option.some (bs.getD (a - addr) 0)
      else m a)
  else Option.none

/-- Go map assignment `originalDatas[addr] = originalData`: replace the
entry for the key if present, otherwise append it. -/
def mapInsert (l : List (Nat × List Nat)) (k : Nat) (v : List Nat) :
    List (Nat × List Nat) :=
  match l with
  | [] => [(k, v)]
  | (k0, v0) :: rest =>
    if k0 = k then (k, v) :: rest else (k0, v0) :: mapInsert rest k v

/-- The instrumentation loop of `singleStep` (`readWriteMem` applied to
every candidate): for each address, peek `len(breakpointInstr)` original
bytes, poke the breakpoint instruction, and only then record the original
bytes in the map; stop at the first failing peek or poke, leaving the
error in the third component. -/
def instrumentLoop (bp : List Nat) (m : TraceeMem)
    (datas : List (Nat × List Nat)) :
    List Nat → TraceeMem × List (Nat × List Nat) × Option PtErr
  | [] => (m, datas, Option.none)
  | addr :: rest =>
    match peekData m addr bp.length with
    | Option.none => (m, datas, Option.some (PtErr.memRead addr))
    | Option.some orig =>
      match pokeData m addr bp with
      | Option.none => (m, datas, Option.some (PtErr.memWrite addr))
      | Option.some m2 => instrumentLoop bp m2 (mapInsert datas addr orig) rest

/-- One `*sys.WaitStatus` as the wait loop inspects it: `Exited()`,
`ExitStatus()` and `StopSignal()`. -/
structure WStatus where
  exited : Bool
  exitStatus : Int
  stopSignal : Nat
deriving DecidableEq

/-- One outcome of `t.dbp.wait(t.ID, 0)`: either the wait call itself
fails, or it reports an event for thread `wpid` with an optional status
(`none` models a nil `*sys.WaitStatus`). -/
inductive WaitResult where
  | err
  | ev (wpid : Int) (status : Option WStatus)
deriving DecidableEq

/-- The value `singleStep` returns: nil is `Option.none` at the outer
level of use; a non-nil error is either a propagated ptrace-layer error
or the typed `proc.ErrProcessExited{Pid, Status}` condition. -/
inductive StepError where
  | ptrace (e : PtErr)
  | processExited (pid : Int) (status : Int)
deriving DecidableEq

/-- `sys.SIGTRAP`. -/
def SIGTRAP : Nat := 5

/-- The wait loop of `singleStep`, consuming the observed events in
order.  Result `none` means the event list ran out (the real loop would
block forever); otherwise the pair carries the loop's return value
(`none` = nil, step complete) and whether `postExit` was called.  A nil
status with a `wpid` that matches neither the process nor an
instruction to stop never reaches `StopSignal` in the scenarios
considered here (in Go that corner would dereference a nil pointer); the
model reads signal 0 for a nil status. -/
def waitLoop (tid pid : Int) : List WaitResult → Option (Option StepError × Bool)
  | [] => Option.none
  | WaitResult.err :: _ =>
      Option.some (Option.some (StepError.ptrace PtErr.waitFail), false)
  | WaitResult.ev wpid status :: rest =>
    let statusExited : Bool :=
      match status with
      | Option.none => true
      | Option.some s => s.exited
    if statusExited = true ∧ wpid = pid then
      let rs : Int :=
        match status with
        | Option.none => 0
        | Option.some s => s.exitStatus
      Option.some (Option.some (StepError.processExited pid rs), true)
    else
      let stopSig : Nat :=
        match status with
        | Option.none => 0
        | Option.some s => s.stopSignal
      if wpid = tid ∧ stopSig = SIGTRAP then Option.some (Option.none, false)
      else waitLoop tid pid rest

/-- The deferred restore loop of `singleStep`: poke the recorded original
bytes back at every mapped address (every recorded value is non-nil, so
the `originalData != nil` guard always passes).  The second component is
`none` when the loop body never ran, and otherwise carries the result of
the last poke (`none` = success) — the loop assigns the function's named
return `err` on every iteration, which is what the final result of
`singleStep` reflects. -/
def restoreAll (m : TraceeMem) :
    List (Nat × List Nat) → TraceeMem × Option (Option PtErr)
  | [] => (m, Option.none)
  | (addr, data) :: rest =>
    let step : TraceeMem × Option PtErr :=
      match pokeData m addr data with
      | Option.none => (m, Option.some (PtErr.memWrite addr))
      | Option.some m2 => (m2, Option.none)
    match restoreAll step.1 rest with
    | (mf, Option.none) => (mf, Option.some step.2)
    | (mf, Option.some r) => (mf, Option.some r)

/-- The oracle a `singleStep` call runs against: thread and process ids,
the outcome of the initial `t.Registers()` call, the decode function, the
architecture parameters, the tracee memory, whether `ptraceCont`
succeeds, and the events the wait loop will observe. -/
structure StepConfig where
  tid : Int
  pid : Int
  registersResult : Except PtErr Registers
  decode : List Nat → Except PtErr Inst
  nextInstrLen : Nat
  breakpointInstr : List Nat
  mem : TraceeMem
  contOk : Bool
  events : List WaitResult

/-- Everything observable about one `singleStep` call: final tracee
memory, whether `ptraceCont` was issued, whether `postExit` was called,
the final `originalDatas` map, and the returned value (`Option.none`
when the wait loop would block forever; otherwise
`Option.some r` with `r = Option.none` for a nil return). -/
structure StepRun where
  mem : TraceeMem
  contIssued : Bool
  postExitCalled : Bool
  datas : List (Nat × List Nat)
  result : Option (Option StepError)

/-- Return through the deferred restore: the restore loop runs, and when
its body executed at least once its last poke result replaces the named
return value `err` (a successful last poke turns any prior return value
into nil; a failing one turns it into that poke's write error). -/
def finishStep (m : TraceeMem) (datas : List (Nat × List Nat))
    (ret : Option StepError) (contIssued postExitCalled : Bool) : StepRun :=
  match restoreAll m datas with
  | (m2, Option.none) => ⟨m2, contIssued, postExitCalled, datas, Option.some ret⟩
  | (m2, Option.some Option.none) =>
      ⟨m2, contIssued, postExitCalled, datas, Option.some Option.none⟩
  | (m2, Option.some (Option.some e)) =>
      ⟨m2, contIssued, postExitCalled, datas,
        Option.some (Option.some (StepError.ptrace e))⟩

/-- `(*nativeThread).singleStep`: fetch registers and candidate next PCs
(failing fast, before any write, on either); instrument every candidate
address (converted to a 32-bit `uintptr`) with the breakpoint
instruction; issue `ptraceCont`; run the wait loop; and on every return
path after instrumentation pass through the deferred restore of
`finishStep`. -/
def singleStep (cfg : StepConfig) : StepRun :=
  match cfg.registersResult with
  | Except.error e =>
      ⟨cfg.mem, false, false, [], Option.some (Option.some (StepError.ptrace e))⟩
  | Except.ok regs =>
    match resolvePC cfg.decode cfg.nextInstrLen cfg.mem regs with
    | Except.error e =>
        ⟨cfg.mem, false, false, [], Option.some (Option.some (StepError.ptrace e))⟩
    | Except.ok nextPcs =>
      match instrumentLoop cfg.breakpointInstr cfg.mem [] (nextPcs.map uptr) with
      | (m1, datas, Option.some e) =>
          finishStep m1 datas (Option.some (StepError.ptrace e)) false false
      | (m1, datas, Option.none) =>
        if cfg.contOk then
          match waitLoop cfg.tid cfg.pid cfg.events with
          | Option.none => ⟨m1, true, false, datas, Option.none⟩
          | Option.some (ret, pe) => finishStep m1 datas ret true pe
        else
          finishStep m1 datas (Option.some (StepError.ptrace PtErr.contFail)) true false

/-- The `udf`-based ARM breakpoint instruction the architecture
description supplies. -/
def armBreakpoint : List Nat := [0xF0, 0x01, 0xF0, 0xE7]

/-- C10 witness configuration: the initial register fetch fails. -/
def cfgC10 : StepConfig :=
  ⟨1, 1, Except.error (PtErr.regGet 0), fun _ => Except.ok ⟨Op.other, []⟩, 4,
    armBreakpoint, fun _ => Option.some 0, true, []⟩

/-- C10: when the prepare phase fails — the register fetch or the
candidate-PC resolution returns an error — `singleStep` returns that
error with the tracee memory unmodified, no breakpoint recorded and no
resume issued. -/
theorem singleStep_prepare_failure_no_writes (cfg : StepConfig) (e : PtErr)
    (h : cfg.registersResult = Except.error e ∨
      ∃ regs, cfg.registersResult = Except.ok regs ∧
        resolvePC cfg.decode cfg.nextInstrLen cfg.mem regs = Except.error e) :
    (singleStep cfg).mem = cfg.mem ∧ (singleStep cfg).contIssued = false ∧
      (singleStep cfg).datas = [] ∧
      (singleStep cfg).result = Option.some (Option.some (StepError.ptrace e)) := by
  rcases h with h | ⟨regs, h1, h2⟩
  · simp [singleStep, h]
  · simp [singleStep, h1, h2]

/-- Witness for `singleStep_prepare_failure_no_writes` at a failing
register fetch. -/
theorem singleStep_prepare_failure_no_writes_witness :
    (singleStep cfgC10).mem = cfgC10.mem ∧ (singleStep cfgC10).contIssued = false ∧
      (singleStep cfgC10).datas = [] ∧
      (singleStep cfgC10).result
        = Option.some (Option.some (StepError.ptrace (PtErr.regGet 0))) :=
  singleStep_prepare_failure_no_writes cfgC10 (PtErr.regGet 0) (Or.inl rfl)

/-- C1 failing configuration: the instruction at `PC = 0x1000` is a
branch to the next instruction (`armasm` decodes it with a
program-counter-relative offset of 4), so the candidate list is
`[0x1004, 0x1004]` — the same address twice.  Every byte of memory
initially holds `0xAA`, the trap for the stepped thread arrives
immediately. -/
def cfgC1 : StepConfig :=
  ⟨1, 1, Except.ok ⟨0x1000, fun _ => Option.none⟩,
    fun _ => Except.ok ⟨Op.B, [Arg.pcrel 4]⟩, 4, armBreakpoint,
    fun _ => Option.some 0xAA, true,
    [WaitResult.ev 1 (Option.some ⟨false, 0, 5⟩)]⟩

/-- C1: with a duplicated candidate address the step completes (returns
nil), yet after the call the instrumented address holds the first byte
of the breakpoint instruction instead of its pre-step value `0xAA`: the
second instrumentation of the same address saved the breakpoint bytes as
the "original" data, so the restore wrote the breakpoint back. -/
theorem singleStep_duplicate_breakpoint_corrupts :
    resolvePC cfgC1.decode 4 cfgC1.mem ⟨0x1000, fun _ => Option.none⟩
        = Except.ok [0x1004, 0x1004]
    ∧ (singleStep cfgC1).result = Option.some Option.none
    ∧ cfgC1.mem 0x1004 = Option.some 0xAA
    ∧ (singleStep cfgC1).mem 0x1004 = Option.some 0xF0
    ∧ (0xF0 : Nat) ≠ 0xAA := by
  refine ⟨rfl, rfl, rfl, rfl, by decide⟩

/-- C2 failing configuration: a non-control-flow instruction, successful
instrumentation of the single fall-through candidate, then the wait
observes the process (pid 1) exiting with status 42 before any trap. -/
def cfgC2 : StepConfig :=
  ⟨1, 1, Except.ok ⟨0x1000, fun _ => Option.none⟩,
    fun _ => Except.ok ⟨Op.other, []⟩, 4, armBreakpoint,
    fun _ => Option.some 0xAA, true,
    [WaitResult.ev 1 (Option.some ⟨true, 42, 0⟩)]⟩

/-- C2: the wait loop does produce the typed
`ErrProcessExited{Pid: 1, Status: 42}` and `postExit` is called, but the
deferred restore loop reassigns the named return `err` with the result
of its (successful) poke, so `singleStep` actually returns nil — not the
typed process-exited condition the claim requires. -/
theorem singleStep_exit_clobbered :
    waitLoop cfgC2.tid cfgC2.pid cfgC2.events
        = Option.some (Option.some (StepError.processExited 1 42), true)
    ∧ (singleStep cfgC2).postExitCalled = true
    ∧ (singleStep cfgC2).result = Option.some Option.none := by
  refine ⟨rfl, rfl, rfl⟩

/-- C3 failing configuration: a branch whose immediate target `0x3000`
lies in unmapped memory (every byte from `0x2000` up is unmapped), so
instrumentation fails at the second candidate after the first
(`0x1004`) was already instrumented. -/
def cfgC3 : StepConfig :=
  ⟨1, 1, Except.ok ⟨0x1000, fun _ => Option.none⟩,
    fun _ => Except.ok ⟨Op.B, [Arg.imm 0x3000]⟩, 4, armBreakpoint,
    fun a => if a < 0x2000 then Option.some 0xAA else Option.none, true, []⟩

/-- C3: instrumentation fails at address `0x3000` with a memory-read
error after `0x1004` was instrumented, but the deferred cleanup of
`0x1004` succeeds and its poke result (nil) replaces the named return
`err`: `singleStep` returns nil, suppressing the original, more specific
error instead of propagating it. -/
theorem singleStep_error_clobbered_to_nil :
    (instrumentLoop cfgC3.breakpointInstr cfgC3.mem [] [0x1004, 0x3000]).2.2
        = Option.some (PtErr.memRead 0x3000)
    ∧ (singleStep cfgC3).contIssued = false
    ∧ (singleStep cfgC3).result = Option.some Option.none := by
  refine ⟨rfl, rfl, rfl⟩

/-- C8 failing configuration: a non-control-flow instruction, successful
instrumentation and resume, and then the wait call itself fails — no
trap for the stepped thread is ever observed. -/
def cfgC8 : StepConfig :=
  ⟨1, 1, Except.ok ⟨0x1000, fun _ => Option.none⟩,
    fun _ => Except.ok ⟨Op.other, []⟩, 4, armBreakpoint,
    fun _ => Option.some 0xAA, true, [WaitResult.err]⟩

/-- C8: the wait loop itself ignores events of other threads of the same
process and completes only on a trap for the stepped thread (last
conjunct: an event for thread 2 with a non-trap stop is skipped and the
later trap for thread 1 completes the step); but `singleStep` as a whole
can report success without any trap having been observed: here the wait
call fails, and the deferred restore's successful poke replaces the
named return `err` with nil. -/
theorem singleStep_success_without_trap :
    cfgC8.events = [WaitResult.err]
    ∧ waitLoop cfgC8.tid cfgC8.pid cfgC8.events
        = Option.some (Option.some (StepError.ptrace PtErr.waitFail), false)
    ∧ (singleStep cfgC8).result = Option.some Option.none
    ∧ waitLoop 1 1 [WaitResult.ev 2 (Option.some ⟨false, 0, 17⟩),
        WaitResult.ev 1 (Option.some ⟨false, 0, 5⟩)]
        = Option.some (Option.none, false) := by
  refine ⟨rfl, rfl, rfl, rfl⟩
